import Mathlib

/-!
Shallow embedding of `core/types/data_blob.go` (blob-carrying transaction
data layer): KZG commitments, BLS field elements, blobs, their bounded
lists, SSZ-style byte (de)serialization, versioned hashes, hex text codec,
Merkleization entry points, and the `checkWrapping` consistency check of
`BlobTxWrapData`.

Bytes are modelled as `Fin 256`; byte streams as `List Byte`.  The external
collaborators (Keccak digest, BLS G1 point decompression/compression, the
KZG commitment scheme, batch verification) are passed in as function
parameters, mirroring the Go code's imports of `crypto`, `bls` and `kzg`.
The ztyp codec's `DecodingReader`/`EncodingWriter` are modelled as explicit
byte-list threading: a writer is the list of bytes produced, a reader takes
the byte list in scope and returns the value plus the unread tail.
-/

namespace DataBlob

/-- A single byte. -/
abbrev Byte := Fin 256

/-- A byte string. -/
abbrev Bytes := List Byte

/-- Truncate a natural number to a byte. -/
def natToByte (n : Nat) : Byte := ⟨n % 256, Nat.mod_lt _ (by norm_num)⟩

/-! ## Constants from the source -/

/-- `const BLOB_COMMITMENT_VERSION_KZG byte = 0x01` -/
def BLOB_COMMITMENT_VERSION_KZG : Byte := 1

/-- `const MAX_TX_WRAP_KZG_COMMITMENTS = 1 << 24` -/
def MAX_TX_WRAP_KZG_COMMITMENTS : Nat := 2 ^ 24

/-- `const LIMIT_BLOBS_PER_TX = 1 << 24` -/
def LIMIT_BLOBS_PER_TX : Nat := 2 ^ 24

/-! ## Types

`KZGCommitment` is `[48]byte` in Go, `BLSFieldElement` is `[32]byte`;
we model both as byte lists and carry the length facts as hypotheses
where they matter (the Go array types enforce them). -/

/-- `type KZGCommitment [48]byte` — compressed BLS12-381 G1 element. -/
abbrev KZGCommitment := Bytes

/-- `type BLSFieldElement [32]byte` -/
abbrev BLSFieldElement := Bytes

/-- `type Blob []BLSFieldElement` -/
abbrev Blob := List BLSFieldElement

/-- `type BlobKzgs []KZGCommitment` -/
abbrev BlobKzgs := List KZGCommitment

/-- `type Blobs []Blob` -/
abbrev Blobs := List Blob

/-- A commitment is well formed when it has its 48 bytes
(enforced by the Go array type `[48]byte`). -/
def KZGCommitment.wf (p : KZGCommitment) : Prop := p.length = 48

/-- A blob is well formed for a given `FieldElementsPerBlob` parameter when
it holds exactly that many 32-byte scalars. -/
def Blob.wf (fieldElementsPerBlob : Nat) (blob : Blob) : Prop :=
  blob.length = fieldElementsPerBlob ∧ ∀ e ∈ blob, e.length = 32

instance (fieldElementsPerBlob : Nat) (blob : Blob) :
    Decidable (Blob.wf fieldElementsPerBlob blob) := by
  unfold Blob.wf; infer_instance

/-! ## Codec model

Errors produced by the byte and text codecs. -/

inductive CodecErr
  /-- the stream ended before the requested bytes were available -/
  | truncated
  /-- a list scope is not a multiple of the element size -/
  | badListShape
  /-- a list would exceed its declared element limit -/
  | listTooLarge
  /-- `errors.New("nil pubkey")` from `KZGCommitment.Deserialize` -/
  | nilPubkey
  /-- `errors.New("cannot decode into nil KZGCommitment")` -/
  | nilUnmarshal
  /-- `fmt.Errorf("unexpected length string ...")` from `UnmarshalText` -/
  | textLength
  /-- invalid hex digit reported by `hex.Decode` -/
  | hexInvalid
  /-- an offset of a container header is out of bounds -/
  | badOffset
  deriving DecidableEq, Repr

/-- `dr.Read(buf)` for a buffer of `n` bytes: consume exactly `n` bytes of
the stream, failing if fewer remain. -/
def read (n : Nat) (s : Bytes) : Except CodecErr (Bytes × Bytes) :=
  if n ≤ s.length then .ok (s.take n, s.drop n) else .error .truncated

/-- Read `count` consecutive fixed-size chunks of `elemLen` bytes each,
threading the unread tail.  This is the shared shape of
`ReadFieldElements` and of the element loop inside `dr.List`. -/
def readChunks (elemLen : Nat) : Nat → Bytes → Except CodecErr (List Bytes × Bytes)
  | 0, s => .ok ([], s)
  | n + 1, s =>
    match read elemLen s with
    | .error e => .error e
    | .ok (e, s₁) =>
      match readChunks elemLen n s₁ with
      | .error e' => .error e'
      | .ok (rest, s₂) => .ok (e :: rest, s₂)

/-- `mapM` over `Option`, written out: apply `f` to each element in
order, failing at the first `none` (the shape of every conversion loop in
the source: first failure aborts, no partial result). -/
def optionMapM {α β : Type} (f : α → Option β) : List α → Option (List β)
  | [] => some []
  | x :: xs =>
    match f x, optionMapM f xs with
    | some y, some ys => some (y :: ys)
    | _, _ => none

/-! ## KZGCommitment methods -/

/-- `func (p *KZGCommitment) Deserialize(dr *codec.DecodingReader) error`:
nil-receiver check first, then read the 48 bytes.  The receiver pointer is
modelled as an `Option`; the previous pointed-to value is irrelevant since
the read overwrites all 48 bytes. -/
def KZGCommitment.Deserialize (p : Option KZGCommitment) (s : Bytes) :
    Except CodecErr (KZGCommitment × Bytes) :=
  match p with
  | none => .error .nilPubkey
  | some _ => read 48 s

/-- `func (p *KZGCommitment) Serialize(w *codec.EncodingWriter) error`:
write the 48 bytes verbatim; the writer is modelled as the bytes produced. -/
def KZGCommitment.Serialize (p : KZGCommitment) : Bytes := p

/-- `func (KZGCommitment) ByteLength() uint64 { return 48 }` -/
def KZGCommitment.ByteLength : Nat := 48

/-- `copy(dst, src)` on byte slices: overwrite the first
`min (len dst) (len src)` bytes of `dst` with those of `src`. -/
def copyBytes (dst src : Bytes) : Bytes :=
  let n := min dst.length src.length
  src.take n ++ dst.drop n

/-- A zero-initialized `tree.Root` (`[32]byte`). -/
def zeroRoot : Bytes := List.replicate 32 0

/-- `func (p KZGCommitment) HashTreeRoot(hFn tree.HashFn) tree.Root`:
copy `p[0:32]` into a zeroed root `a`, `p[32:48]` into a zeroed root `b`,
and combine with the two-child hash function. -/
def KZGCommitment.HashTreeRoot (hFn : Bytes → Bytes → Bytes) (p : KZGCommitment) : Bytes :=
  let a := copyBytes zeroRoot (p.take 32)
  let b := copyBytes zeroRoot ((p.drop 32).take 16)
  hFn a b

/-! ## Hex text codec (`encoding/hex` + the methods of `KZGCommitment`)

Text is modelled as a byte string, as in Go (`[]byte` of ASCII). -/

/-- Lowercase hex digit for a nibble, as in `encoding/hex`:
digits `'0'..'9'` then `'a'..'f'`. -/
def toHexChar (n : Nat) : Byte :=
  if n < 10 then natToByte (48 + n) else natToByte (97 + n - 10)

/-- Two lowercase hex digits of a byte, high nibble first. -/
def byteToHex (b : Byte) : Bytes := [toHexChar (b.val / 16), toHexChar (b.val % 16)]

/-- `hex.EncodeToString`: lowercase hex of the bytes, in order. -/
def hexEncode (bs : Bytes) : Bytes := (bs.map byteToHex).flatten

/-- `encoding/hex.fromHexChar`: value of one hex digit, accepting
`0-9`, `a-f` and `A-F` (ASCII 48–57, 97–102, 65–70). -/
def fromHexChar (c : Byte) : Option Nat :=
  if 48 ≤ c.val ∧ c.val ≤ 57 then some (c.val - 48)
  else if 97 ≤ c.val ∧ c.val ≤ 102 then some (c.val - 97 + 10)
  else if 65 ≤ c.val ∧ c.val ≤ 70 then some (c.val - 65 + 10)
  else none

/-- `hex.Decode`: pair up digits, high nibble first; fail on a non-hex
digit or odd length. -/
def hexDecode : Bytes → Option Bytes
  | [] => some []
  | [_] => none
  | c₁ :: c₂ :: rest =>
    match fromHexChar c₁, fromHexChar c₂, hexDecode rest with
    | some h, some l, some r => some (natToByte (h * 16 + l) :: r)
    | _, _, _ => none

/-- `func (p KZGCommitment) MarshalText() ([]byte, error)`:
`"0x" + hex.EncodeToString(p[:])` (never fails). -/
def KZGCommitment.MarshalText (p : KZGCommitment) : Bytes :=
  48 :: 120 :: hexEncode p

/-- The tag-stripping step of `UnmarshalText`:
`if len(text) >= 2 && text[0] == '0' && (text[1] == 'x' || text[1] == 'X')
{ text = text[2:] }`.  `48, 120, 88` are ASCII `'0', 'x', 'X'`. -/
def stripHexTag (text : Bytes) : Bytes :=
  match text with
  | 48 :: 120 :: rest => rest
  | 48 :: 88 :: rest => rest
  | other => other

/-- `func (p *KZGCommitment) UnmarshalText(text []byte) error`:
nil check, strip one optional `0x`/`0X` tag, require 96 characters,
hex-decode into the 48-byte receiver. -/
def KZGCommitment.UnmarshalText (p : Option KZGCommitment) (text : Bytes) :
    Except CodecErr KZGCommitment :=
  match p with
  | none => .error .nilUnmarshal
  | some _ =>
    let t := stripHexTag text
    if t.length ≠ 96 then .error .textLength
    else match hexDecode t with
      | some bs => .ok bs
      | none => .error .hexInvalid

/-! ## Versioned hash -/

/-- `func (kzg KZGCommitment) ComputeVersionedHash() common.Hash`:
Keccak-256 of the 48 bytes, with byte 0 overwritten by the version tag.
The digest function is the injected external collaborator. -/
def KZGCommitment.ComputeVersionedHash (keccak : Bytes → Bytes) (kzg : KZGCommitment) : Bytes :=
  (keccak kzg).set 0 BLOB_COMMITMENT_VERSION_KZG

/-! ## Field elements and blobs -/

/-- `func ReadFieldElements(dr, elems, length)`: (re)size the destination
to `length` and overwrite every element with 32 fresh bytes from the
stream.  The destination's previous *value* never survives (every element
is overwritten; only backing capacity is recycled), so the result is just
the freshly read elements. -/
def ReadFieldElements (length : Nat) (s : Bytes) :
    Except CodecErr (List BLSFieldElement × Bytes) :=
  readChunks 32 length s

/-- `func WriteFieldElements(ew, elems)`: each 32-byte element verbatim,
in order. -/
def WriteFieldElements (elems : List BLSFieldElement) : Bytes := elems.flatten

/-- `func (blob *Blob) Deserialize(dr)`: exactly
`params.FieldElementsPerBlob` scalars.  The parameter is external
configuration, passed explicitly. -/
def Blob.Deserialize (fieldElementsPerBlob : Nat) (s : Bytes) :
    Except CodecErr (Blob × Bytes) :=
  ReadFieldElements fieldElementsPerBlob s

/-- `func (blob Blob) Serialize(w)` -/
def Blob.Serialize (blob : Blob) : Bytes := WriteFieldElements blob

/-- `func (blob Blob) ByteLength() uint64` -/
def Blob.ByteLength (fieldElementsPerBlob : Nat) : Nat := fieldElementsPerBlob * 32

/-! ## BLS scalar conversion and commitment computation

`bls.FrFrom32` converts 32 little-endian bytes to a field element,
refusing values at or above the BLS12-381 scalar field modulus.  The
field element is modelled by its natural-number value. -/

/-- The BLS12-381 scalar field modulus (the prime `r`). -/
def blsModulus : Nat :=
  52435875175126190479447740508185965837690552500527637822603658699938581184513

/-- Little-endian value of a byte string. -/
def fromLittleEndian (bs : Bytes) : Nat :=
  bs.foldr (fun b acc => b.val + 256 * acc) 0

/-- `bls.FrFrom32`: succeeds exactly when the 32-byte value is below the
field modulus. -/
def FrFrom32 (e : BLSFieldElement) : Option Nat :=
  let v := fromLittleEndian e
  if v < blsModulus then some v else none

/-- `func (blob Blob) ComputeCommitment() (KZGCommitment, bool)`:
convert every scalar (first failure returns the zero commitment and
`false`), then invoke the external KZG scheme `kzg.BlobToKzg` on the full
scalar vector and compress the point with `bls.ToCompressedG1` into the
zero-initialized 48-byte output.  `blobToKzg` and `toCompressedG1` are the
injected external collaborators; `G1` is their abstract point type. -/
def Blob.ComputeCommitment {G1 : Type} (blobToKzg : List Nat → G1)
    (toCompressedG1 : G1 → Bytes) (blob : Blob) : KZGCommitment × Bool :=
  match optionMapM FrFrom32 blob with
  | none => (List.replicate 48 0, false)
  | some frs =>
    let commitmentG1 := blobToKzg frs
    (copyBytes (List.replicate 48 0) (toCompressedG1 commitmentG1), true)

/-! ## BlobKzgs -/

/-- `func (li BlobKzgs) Commitments() ([]*bls.G1Point, error)`:
decompress every commitment via `bls.FromCompressedG1`
(the injected `fromCompressedG1`), failing on the first invalid point. -/
def BlobKzgs.Commitments {G1 : Type} (fromCompressedG1 : Bytes → Option G1)
    (li : BlobKzgs) : Option (List G1) :=
  optionMapM fromCompressedG1 li

/-- `func (li *BlobKzgs) Deserialize(dr)`: `dr.List` over 48-byte
elements.  The ztyp list decoder derives the element count from the byte
scope, rejects a misaligned scope and a count above the limit, then
appends one freshly deserialized element per iteration to the existing
destination `li`. -/
def BlobKzgs.Deserialize (li : BlobKzgs) (s : Bytes) : Except CodecErr BlobKzgs :=
  if s.length % 48 ≠ 0 then .error .badListShape
  else if s.length / 48 > MAX_TX_WRAP_KZG_COMMITMENTS then .error .listTooLarge
  else match readChunks 48 (s.length / 48) s with
    | .ok (elems, _) => .ok (li ++ elems)
    | .error e => .error e

/-- `func (li BlobKzgs) Serialize(w)`: `w.List` over fixed 48-byte
elements writes them back to back. -/
def BlobKzgs.Serialize (li : BlobKzgs) : Bytes := li.flatten

/-- `func (li BlobKzgs) ByteLength() uint64 { return len(li) * 48 }` -/
def BlobKzgs.ByteLength (li : BlobKzgs) : Nat := li.length * 48

/-! ## Blobs -/

/-- `func (blobs Blobs) Blobs() ([][]bls.Fr, error)`: convert every scalar
of every blob with `bls.FrFrom32`, failing on the first out-of-range
scalar.  (Named `toFr` here: the Go method name `Blobs` collides with its
own receiver type in Lean.) -/
def Blobs.toFr (blobs : Blobs) : Option (List (List Nat)) :=
  optionMapM (fun b => optionMapM FrFrom32 b) blobs

/-- Read `count` consecutive blobs of `fieldElementsPerBlob` scalars each. -/
def readBlobs (fieldElementsPerBlob : Nat) : Nat → Bytes → Except CodecErr (List Blob × Bytes)
  | 0, s => .ok ([], s)
  | n + 1, s =>
    match Blob.Deserialize fieldElementsPerBlob s with
    | .error e => .error e
    | .ok (b, s₁) =>
      match readBlobs fieldElementsPerBlob n s₁ with
      | .error e' => .error e'
      | .ok (rest, s₂) => .ok (b :: rest, s₂)

/-- `func (a *Blobs) Deserialize(dr)`: `dr.List` over fixed-size blob
elements of `params.FieldElementsPerBlob*32` bytes, limit
`LIMIT_BLOBS_PER_TX`, appending to the existing destination. -/
def Blobs.Deserialize (fieldElementsPerBlob : Nat) (a : Blobs) (s : Bytes) :
    Except CodecErr Blobs :=
  if s.length % (fieldElementsPerBlob * 32) ≠ 0 then .error .badListShape
  else if s.length / (fieldElementsPerBlob * 32) > LIMIT_BLOBS_PER_TX then .error .listTooLarge
  else match readBlobs fieldElementsPerBlob (s.length / (fieldElementsPerBlob * 32)) s with
    | .ok (elems, _) => .ok (a ++ elems)
    | .error e => .error e

/-- `func (a Blobs) Serialize(w)` -/
def Blobs.Serialize (a : Blobs) : Bytes := (a.map Blob.Serialize).flatten

/-- `func (a Blobs) ByteLength() uint64` -/
def Blobs.ByteLength (fieldElementsPerBlob : Nat) (a : Blobs) : Nat :=
  a.length * (fieldElementsPerBlob * 32)

/-! ## Transaction wrap data and `checkWrapping` -/

/-- The part of `BlobTxMessage` that `checkWrapping` reads. -/
structure BlobTxMessage where
  BlobVersionedHashes : List Bytes
  deriving DecidableEq

/-- The part of `SignedBlobTx` that `checkWrapping` reads. -/
structure SignedBlobTx where
  Message : BlobTxMessage
  deriving DecidableEq

/-- `TxData` at the point of `checkWrapping`'s type assertion
`inner.(*SignedBlobTx)`: either a signed blob tx or some other variant
(identified only by its dynamic type name, used in the error message). -/
inductive TxData
  | signedBlobTx (tx : SignedBlobTx)
  | other (typeName : String)
  deriving DecidableEq

/-- `type BlobTxWrapData struct { BlobKzgs BlobKzgs; Blobs Blobs }` -/
structure BlobTxWrapData where
  BlobKzgs : BlobKzgs
  Blobs : Blobs
  deriving DecidableEq

/-- The errors `checkWrapping` can return, in source order; `external`
wraps whatever `kzg.VerifyBlobs` returns, which is propagated unchanged. -/
inductive WrapError (E : Type)
  /-- `expected signed blob tx, got %T` -/
  | notSignedBlobTx (typeName : String)
  /-- `too many blobs in blob tx, got %d, expected no more than %d` -/
  | tooManyBlobs (got expected : Nat)
  /-- `expected equal amount but got %d kzgs and %d blobs` -/
  | kzgsBlobsMismatch (kzgs blobs : Nat)
  /-- `expected equal amount but got %d kzgs and %d versioned hashes` -/
  | kzgsHashesMismatch (kzgs hashes : Nat)
  /-- `versioned hash %d supposedly %s but does not match computed %s` -/
  | versionedHashMismatch (i : Nat) (supposed computed : Bytes)
  /-- `internal commitment error` -/
  | internalCommitment
  /-- `internal blobs error` -/
  | internalBlobs
  /-- error of the external batch verification, unchanged -/
  | external (e : E)

/-- The index loop of `checkWrapping`: find the first index whose computed
versioned hash differs from the declared one, reporting the declared and
computed hashes there.  `i` is the index of the first element of `hashes`
in the original list. -/
def firstHashMismatch (keccak : Bytes → Bytes) (kzgs : BlobKzgs) :
    Nat → List Bytes → Option (Nat × Bytes × Bytes)
  | _, [] => none
  | i, h :: rest =>
    let computed := KZGCommitment.ComputeVersionedHash keccak (kzgs.getD i [])
    if computed ≠ h then some (i, h, computed)
    else firstHashMismatch keccak kzgs (i + 1) rest

/-- `func (b *BlobTxWrapData) checkWrapping(inner TxData) error`:
the ordered fail-fast validation sequence.  `keccak`, `fromCompressedG1`
and `verifyBlobs` are the injected external collaborators
(`crypto.Keccak256Hash`, `bls.FromCompressedG1`, `kzg.VerifyBlobs`);
`maxBlobsPerTx` is the external configuration `params.MaxBlobsPerTx`. -/
def checkWrapping {G1 E : Type} (keccak : Bytes → Bytes)
    (fromCompressedG1 : Bytes → Option G1)
    (verifyBlobs : List G1 → List (List Nat) → Except E Unit)
    (maxBlobsPerTx : Nat) (b : BlobTxWrapData) (inner : TxData) :
    Except (WrapError E) Unit :=
  match inner with
  | .other t => .error (.notSignedBlobTx t)
  | .signedBlobTx blobTx =>
    let hashes := blobTx.Message.BlobVersionedHashes
    if hashes.length > maxBlobsPerTx then
      .error (.tooManyBlobs hashes.length maxBlobsPerTx)
    else if b.BlobKzgs.length ≠ b.Blobs.length then
      .error (.kzgsBlobsMismatch b.BlobKzgs.length b.Blobs.length)
    else if b.BlobKzgs.length ≠ hashes.length then
      .error (.kzgsHashesMismatch b.BlobKzgs.length hashes.length)
    else match firstHashMismatch keccak b.BlobKzgs 0 hashes with
      | some (i, h, computed) => .error (.versionedHashMismatch i h computed)
      | none =>
        match BlobKzgs.Commitments fromCompressedG1 b.BlobKzgs with
        | none => .error .internalCommitment
        | some commitments =>
          match Blobs.toFr b.Blobs with
          | none => .error .internalBlobs
          | some blobs => (verifyBlobs commitments blobs).mapError .external

/-- The versioned hash `checkWrapping` computes at index `i`:
`b.BlobKzgs[i].ComputeVersionedHash()`. -/
def computedHash (keccak : Bytes → Bytes) (b : BlobTxWrapData) (i : Nat) : Bytes :=
  KZGCommitment.ComputeVersionedHash keccak (b.BlobKzgs.getD i [])

/-! ## WrapData byte codec

The wire format of the `(CommitmentList, BlobList)` pair goes through the
ztyp `Container` machinery, which is outside this repository. -/

/-- A `uint32` offset in little-endian bytes, as the SSZ container header
uses. -/
def toUint32LE (n : Nat) : Bytes :=
  [natToByte n, natToByte (n / 256), natToByte (n / 256 ^ 2), natToByte (n / 256 ^ 3)]

/-- Read a little-endian `uint32` from the first 4 bytes. -/
def fromUint32LE (b : Bytes) : Nat := fromLittleEndian (b.take 4)

/-- Modelled from the spec: the repository serializes the
`(CommitmentList, BlobList)` pair through the external ztyp `Container`
codec ("variable-size lists via a length/offset header"), whose code is
not part of this repository.  Two variable-length fields produce a header
of two 4-byte offsets (the first equal to the 8-byte header size, the
second pointing at the start of the blob list's bytes), followed by the
two fields' bytes back to back. -/
def BlobTxWrapData.Serialize (b : BlobTxWrapData) : Bytes :=
  let kzgBytes := BlobKzgs.Serialize b.BlobKzgs
  toUint32LE 8 ++ toUint32LE (8 + kzgBytes.length) ++ kzgBytes ++ Blobs.Serialize b.Blobs

/-- Modelled from the spec: the matching offset-header decoder for the
`(CommitmentList, BlobList)` pair (the external ztyp `Container` decoder
is not part of this repository).  Reads the two offsets, slices the two
fields' byte ranges, and decodes each list into a fresh destination. -/
def BlobTxWrapData.Deserialize (fieldElementsPerBlob : Nat) (s : Bytes) :
    Except CodecErr BlobTxWrapData :=
  if s.length < 8 then .error .truncated
  else
    let off₁ := fromUint32LE s
    let off₂ := fromUint32LE (s.drop 4)
    if off₁ ≠ 8 then .error .badOffset
    else if off₂ < off₁ ∨ s.length < off₂ then .error .badOffset
    else
      match BlobKzgs.Deserialize [] ((s.drop 8).take (off₂ - 8)) with
      | .error e => .error e
      | .ok kzgs =>
        match Blobs.Deserialize fieldElementsPerBlob [] (s.drop off₂) with
        | .error e => .error e
        | .ok blobs => .ok ⟨kzgs, blobs⟩

/-! ## Case variation of hex text -/

/-- Uppercase a lowercase hex letter (`a`–`f`, ASCII 97–102), leaving
every other byte unchanged. -/
def hexUpper (c : Byte) : Byte :=
  if 97 ≤ c.val ∧ c.val ≤ 102 then natToByte (c.val - 32) else c

/-- `UpperVariant s t`: `s` is obtained from `t` by uppercasing the
lowercase hex letters at some subset of positions. -/
inductive UpperVariant : Bytes → Bytes → Prop
  | nil : UpperVariant [] []
  | keep (c : Byte) {s t : Bytes} : UpperVariant s t → UpperVariant (c :: s) (c :: t)
  | upper (c : Byte) {s t : Bytes} : UpperVariant s t → UpperVariant (hexUpper c :: s) (c :: t)

/-- A byte is a hex digit exactly when `encoding/hex` accepts it. -/
def isHexDigit (c : Byte) : Prop := (fromHexChar c).isSome

instance (c : Byte) : Decidable (isHexDigit c) := by unfold isHexDigit; infer_instance

/-- A byte is a lowercase hex digit: `0`–`9` or `a`–`f`. -/
def isLowerHexDigit (c : Byte) : Prop :=
  (48 ≤ c.val ∧ c.val ≤ 57) ∨ (97 ≤ c.val ∧ c.val ≤ 102)

instance (c : Byte) : Decidable (isLowerHexDigit c) := by
  unfold isLowerHexDigit; infer_instance

/-! # Helper lemmas -/

theorem read_append (n : Nat) (x rest : Bytes) (h : x.length = n) :
    read n (x ++ rest) = .ok (x, rest) := by
  subst h
  simp [read, Nat.le_add_right, List.take_left, List.drop_left]

theorem read_ok (n : Nat) (s a r : Bytes) (h : read n s = .ok (a, r)) :
    a.length = n ∧ s = a ++ r := by
  unfold read at h
  split at h
  · rename_i hle
    simp only [Except.ok.injEq, Prod.mk.injEq] at h
    obtain ⟨rfl, rfl⟩ := h
    exact ⟨by simp [Nat.min_eq_left hle], (List.take_append_drop n s).symm⟩
  · exact absurd h (by simp)

theorem readChunks_append (elemLen : Nat) (xs : List Bytes) (rest : Bytes)
    (h : ∀ x ∈ xs, x.length = elemLen) :
    readChunks elemLen xs.length (xs.flatten ++ rest) = .ok (xs, rest) := by
  induction xs with
  | nil => rfl
  | cons x xs ih =>
    have hx : x.length = elemLen := h x (by simp)
    have hxs : ∀ y ∈ xs, y.length = elemLen := fun y hy => h y (by simp [hy])
    simp only [List.length_cons, List.flatten_cons, List.append_assoc, readChunks]
    rw [read_append elemLen x _ hx]
    simp [ih hxs]

theorem readChunks_ok (elemLen : Nat) (n : Nat) (s : Bytes) (xs : List Bytes) (r : Bytes)
    (h : readChunks elemLen n s = .ok (xs, r)) :
    xs.length = n ∧ (∀ x ∈ xs, x.length = elemLen) ∧ s = xs.flatten ++ r := by
  induction n generalizing s xs r with
  | zero =>
    simp only [readChunks, Except.ok.injEq, Prod.mk.injEq] at h
    obtain ⟨rfl, rfl⟩ := h
    simp
  | succ n ih =>
    rw [readChunks] at h
    split at h
    · exact absurd h (by simp)
    · rename_i e s₁ hr
      split at h
      · exact absurd h (by simp)
      · rename_i rest s₂ hc
        simp only [Except.ok.injEq, Prod.mk.injEq] at h
        obtain ⟨rfl, rfl⟩ := h
        obtain ⟨he, hs⟩ := read_ok elemLen s e s₁ hr
        obtain ⟨h1, h2, h3⟩ := ih s₁ rest s₂ hc
        refine ⟨by simp [h1], ?_, ?_⟩
        · intro x hx
          rcases List.mem_cons.mp hx with rfl | hx
          · exact he
          · exact h2 x hx
        · simp [hs, h3]

theorem optionMapM_eq_none {α β : Type} (f : α → Option β) (l : List α) :
    optionMapM f l = none ↔ ∃ a ∈ l, f a = none := by
  induction l with
  | nil => simp [optionMapM]
  | cons x xs ih =>
    rw [optionMapM]
    cases hfx : f x with
    | none => simp [hfx]
    | some y =>
      cases hxs : optionMapM f xs with
      | none =>
        constructor
        · intro _
          obtain ⟨a, ha, hfa⟩ := ih.mp hxs
          exact ⟨a, by simp [ha], hfa⟩
        · intro _; trivial
      | some ys =>
        have hnone : ¬ ∃ a ∈ xs, f a = none := fun hc => by
          rw [ih.mpr hc] at hxs; exact absurd hxs (by simp)
        simp only [reduceCtorEq, false_iff, List.mem_cons, not_exists, not_and]
        intro a ha
        rcases ha with rfl | ha
        · simp [hfx]
        · intro hfa; exact hnone ⟨a, ha, hfa⟩

theorem optionMapM_isSome {α β : Type} (f : α → Option β) (l : List α)
    (h : ∀ a ∈ l, (f a).isSome) : ∃ ys, optionMapM f l = some ys := by
  cases hm : optionMapM f l with
  | none =>
    obtain ⟨a, ha, hfa⟩ := (optionMapM_eq_none f l).mp hm
    have := h a ha
    rw [hfa] at this
    exact absurd this (by simp)
  | some ys => exact ⟨ys, rfl⟩

theorem flatten_length_const (k : Nat) (l : List Bytes) (h : ∀ x ∈ l, x.length = k) :
    l.flatten.length = l.length * k := by
  induction l with
  | nil => simp
  | cons x xs ih =>
    have hx : x.length = k := h x (by simp)
    have hxs : ∀ y ∈ xs, y.length = k := fun y hy => h y (by simp [hy])
    simp only [List.flatten_cons, List.length_append, List.length_cons, hx, ih hxs]
    ring

/-! # Claim theorems -/

/-- C9: `Deserialize` and `UnmarshalText` on a nil `*KZGCommitment`
receiver return an error instead of dereferencing the pointer; the check
precedes any read, so the result is the same for every input and no input
is consumed. -/
theorem nil_receiver_errors : ∀ s text : Bytes,
    KZGCommitment.Deserialize none s = .error .nilPubkey ∧
    KZGCommitment.UnmarshalText none text = .error .nilUnmarshal :=
  fun _ _ => ⟨rfl, rfl⟩

/-- C2: for every commitment, `ComputeVersionedHash` (a total function,
hence deterministic with no failure path) returns a 32-byte hash whose
byte 0 is `0x01` and whose bytes 1..31 are those of the Keccak-256
digest of the commitment's 48 bytes. -/
theorem computeVersionedHash_version_byte (keccak : Bytes → Bytes) (kzg : KZGCommitment)
    (hk : (keccak kzg).length = 32) :
    (KZGCommitment.ComputeVersionedHash keccak kzg).length = 32 ∧
    (KZGCommitment.ComputeVersionedHash keccak kzg)[0]? = some 1 ∧
    ∀ i, 1 ≤ i → i < 32 →
      (KZGCommitment.ComputeVersionedHash keccak kzg)[i]? = (keccak kzg)[i]? := by
  refine ⟨?_, ?_, ?_⟩
  · simp [KZGCommitment.ComputeVersionedHash, hk]
  · have h0 : 0 < (keccak kzg).length := by omega
    simp [KZGCommitment.ComputeVersionedHash, BLOB_COMMITMENT_VERSION_KZG,
      List.getElem?_set_self h0]
  · intro i h1 _
    have : (0 : Nat) ≠ i := by omega
    simp [KZGCommitment.ComputeVersionedHash, List.getElem?_set_ne this]

/-- C2 witness: a concrete digest function and commitment. -/
theorem computeVersionedHash_version_byte_witness :
    (List.replicate 32 (0 : DataBlob.Byte)).length = 32 ∧
    ((KZGCommitment.ComputeVersionedHash (fun _ => List.replicate 32 0)
        (List.replicate 48 7)).length = 32 ∧
      (KZGCommitment.ComputeVersionedHash (fun _ => List.replicate 32 0)
        (List.replicate 48 7))[0]? = some 1 ∧
      ∀ i, 1 ≤ i → i < 32 →
        (KZGCommitment.ComputeVersionedHash (fun _ => List.replicate 32 0)
          (List.replicate 48 7))[i]? =
        ((fun (_ : Bytes) => List.replicate 32 (0 : Byte)) (List.replicate 48 7))[i]?) :=
  ⟨by decide,
    computeVersionedHash_version_byte (fun _ => List.replicate 32 0)
      (List.replicate 48 7) (by decide)⟩

/-- C5: the Merkle root of a commitment is the two-child hash of its first
32 bytes and its last 16 bytes zero-padded to 32. -/
theorem hashTreeRoot_split (hFn : Bytes → Bytes → Bytes) (p : KZGCommitment)
    (hp : p.length = 48) :
    KZGCommitment.HashTreeRoot hFn p =
      hFn (p.take 32) (p.drop 32 ++ List.replicate 16 0) := by
  unfold KZGCommitment.HashTreeRoot copyBytes zeroRoot
  have h1 : (p.take 32).length = 32 := by simp [hp]
  have h2 : ((p.drop 32).take 16).length = 16 := by simp [hp]
  have h3 : (p.drop 32).length = 16 := by simp [hp]
  rw [h1, h2]
  simp only [List.length_replicate]
  have e1 : (p.take 32).take (min 32 32) = p.take 32 := by
    simp [List.take_take]
  have e2 : ((p.drop 32).take 16).take (min 32 16) = p.drop 32 := by
    simp [List.take_take, List.take_of_length_le (by omega : (p.drop 32).length ≤ 16)]
  rw [e1, e2]
  simp

/-- C7: serialization writes exactly `ByteLength` bytes:
`FieldElementsPerBlob * 32` for a (well-formed) blob, 48 for a
commitment, `N * 48` for a commitment list of `N` elements and
`N * FieldElementsPerBlob * 32` for a blob list of `N` blobs. -/
theorem serialize_length_eq_byteLength (fieldElementsPerBlob : Nat)
    (p : KZGCommitment) (blob : Blob) (li : BlobKzgs) (a : Blobs) :
    (p.length = 48 →
      (KZGCommitment.Serialize p).length = KZGCommitment.ByteLength) ∧
    (Blob.wf fieldElementsPerBlob blob →
      (Blob.Serialize blob).length = Blob.ByteLength fieldElementsPerBlob) ∧
    ((∀ c ∈ li, c.length = 48) →
      (BlobKzgs.Serialize li).length = BlobKzgs.ByteLength li) ∧
    ((∀ bl ∈ a, Blob.wf fieldElementsPerBlob bl) →
      (Blobs.Serialize a).length = Blobs.ByteLength fieldElementsPerBlob a) := by
  refine ⟨?_, ?_, ?_, ?_⟩
  · intro hp
    simpa [KZGCommitment.Serialize, KZGCommitment.ByteLength] using hp
  · intro hwf
    unfold Blob.Serialize WriteFieldElements Blob.ByteLength
    rw [flatten_length_const 32 blob hwf.2, hwf.1]
  · intro h48
    unfold BlobKzgs.Serialize BlobKzgs.ByteLength
    exact flatten_length_const 48 li h48
  · intro hwf
    unfold Blobs.Serialize Blobs.ByteLength
    rw [flatten_length_const (fieldElementsPerBlob * 32) (a.map Blob.Serialize) ?_]
    · simp
    · intro x hx
      obtain ⟨bl, hbl, rfl⟩ := List.mem_map.mp hx
      unfold Blob.Serialize WriteFieldElements
      rw [flatten_length_const 32 bl (hwf bl hbl).2, (hwf bl hbl).1]

/-- C7 witness: concrete values with `FieldElementsPerBlob = 2`. -/
theorem serialize_length_eq_byteLength_witness :
    (KZGCommitment.Serialize (List.replicate 48 0)).length = KZGCommitment.ByteLength ∧
    (Blob.Serialize [List.replicate 32 0, List.replicate 32 5]).length = Blob.ByteLength 2 ∧
    (BlobKzgs.Serialize [List.replicate 48 1]).length =
      BlobKzgs.ByteLength [List.replicate 48 1] ∧
    (Blobs.Serialize [[List.replicate 32 0, List.replicate 32 5]]).length =
      Blobs.ByteLength 2 [[List.replicate 32 0, List.replicate 32 5]] := by
  have h := serialize_length_eq_byteLength 2 (List.replicate 48 0)
    [List.replicate 32 0, List.replicate 32 5] [List.replicate 48 1]
    [[List.replicate 32 0, List.replicate 32 5]]
  exact ⟨h.1 (by decide), h.2.1 (by constructor <;> decide),
    h.2.2.1 (by decide), h.2.2.2 (by decide)⟩

theorem blob_roundtrip_aux (fieldElementsPerBlob : Nat) (b : Blob) (rest : Bytes)
    (hwf : Blob.wf fieldElementsPerBlob b) :
    Blob.Deserialize fieldElementsPerBlob (Blob.Serialize b ++ rest) = .ok (b, rest) := by
  unfold Blob.Deserialize ReadFieldElements Blob.Serialize WriteFieldElements
  rw [← hwf.1]
  exact readChunks_append 32 b rest hwf.2

theorem blobKzgs_roundtrip_aux (li : BlobKzgs)
    (hlen : li.length ≤ MAX_TX_WRAP_KZG_COMMITMENTS) (h48 : ∀ c ∈ li, c.length = 48) :
    BlobKzgs.Deserialize [] (BlobKzgs.Serialize li) = .ok li := by
  have hflat : li.flatten.length = li.length * 48 := flatten_length_const 48 li h48
  unfold BlobKzgs.Deserialize BlobKzgs.Serialize
  rw [hflat]
  have hmod : li.length * 48 % 48 = 0 := Nat.mul_mod_left li.length 48
  have hdiv : li.length * 48 / 48 = li.length := Nat.mul_div_cancel li.length (by norm_num)
  rw [hmod, hdiv]
  simp only [ne_eq, not_true_eq_false, if_false, hlen, Nat.not_lt.mpr hlen]
  have := readChunks_append 48 li [] h48
  rw [List.append_nil] at this
  simp [this, Nat.not_lt.mpr hlen]

theorem readBlobs_append (fieldElementsPerBlob : Nat) (a : List Blob) (rest : Bytes)
    (h : ∀ bl ∈ a, Blob.wf fieldElementsPerBlob bl) :
    readBlobs fieldElementsPerBlob a.length ((a.map Blob.Serialize).flatten ++ rest) =
      .ok (a, rest) := by
  induction a with
  | nil => rfl
  | cons x xs ih =>
    have hx := h x (by simp)
    have hxs : ∀ bl ∈ xs, Blob.wf fieldElementsPerBlob bl :=
      fun bl hbl => h bl (by simp [hbl])
    simp only [List.length_cons, List.map_cons, List.flatten_cons, List.append_assoc,
      readBlobs]
    rw [blob_roundtrip_aux fieldElementsPerBlob x _ hx]
    simp [ih hxs]

theorem blobs_roundtrip_aux (fieldElementsPerBlob : Nat) (hfe : 0 < fieldElementsPerBlob)
    (a : Blobs) (hlen : a.length ≤ LIMIT_BLOBS_PER_TX)
    (hwf : ∀ bl ∈ a, Blob.wf fieldElementsPerBlob bl) :
    Blobs.Deserialize fieldElementsPerBlob [] (Blobs.Serialize a) = .ok a := by
  have helem : ∀ x ∈ a.map Blob.Serialize, x.length = fieldElementsPerBlob * 32 := by
    intro x hx
    obtain ⟨bl, hbl, rfl⟩ := List.mem_map.mp hx
    unfold Blob.Serialize WriteFieldElements
    rw [flatten_length_const 32 bl (hwf bl hbl).2, (hwf bl hbl).1]
  have hflat : (a.map Blob.Serialize).flatten.length = a.length * (fieldElementsPerBlob * 32) := by
    rw [flatten_length_const (fieldElementsPerBlob * 32) _ helem]
    simp
  unfold Blobs.Deserialize Blobs.Serialize
  rw [hflat]
  have hpos : 0 < fieldElementsPerBlob * 32 := by positivity
  have hmod : a.length * (fieldElementsPerBlob * 32) % (fieldElementsPerBlob * 32) = 0 :=
    Nat.mul_mod_left _ _
  have hdiv : a.length * (fieldElementsPerBlob * 32) / (fieldElementsPerBlob * 32) = a.length :=
    Nat.mul_div_cancel _ hpos
  rw [hmod, hdiv]
  have := readBlobs_append fieldElementsPerBlob a [] hwf
  rw [List.append_nil] at this
  simp [this, Nat.not_lt.mpr hlen]

theorem fromLittleEndian_toUint32LE (n : Nat) (h : n < 2 ^ 32) :
    fromLittleEndian (toUint32LE n) = n := by
  simp only [toUint32LE, fromLittleEndian, List.foldr_cons, List.foldr_nil, natToByte]
  omega

theorem wrapData_roundtrip_aux (fieldElementsPerBlob : Nat) (hfe : 0 < fieldElementsPerBlob)
    (w : BlobTxWrapData)
    (hk1 : w.BlobKzgs.length ≤ MAX_TX_WRAP_KZG_COMMITMENTS)
    (hk2 : ∀ c ∈ w.BlobKzgs, c.length = 48)
    (hb1 : w.Blobs.length ≤ LIMIT_BLOBS_PER_TX)
    (hb2 : ∀ bl ∈ w.Blobs, Blob.wf fieldElementsPerBlob bl)
    (hoff : 8 + w.BlobKzgs.length * 48 < 2 ^ 32) :
    BlobTxWrapData.Deserialize fieldElementsPerBlob (BlobTxWrapData.Serialize w) = .ok w := by
  obtain ⟨kz, bls⟩ := w
  simp only at hk1 hk2 hb1 hb2 hoff
  simp only [BlobTxWrapData.Serialize, BlobTxWrapData.Deserialize]
  set K := BlobKzgs.Serialize kz with hK
  set B := Blobs.Serialize bls with hB
  have hKlen : K.length = kz.length * 48 := flatten_length_const 48 kz hk2
  have h4 : (toUint32LE 8).length = 4 := rfl
  have h4' : (toUint32LE (8 + K.length)).length = 4 := rfl
  have hoff₁ : fromUint32LE (toUint32LE 8 ++ (toUint32LE (8 + K.length) ++ (K ++ B))) = 8 := by
    rw [fromUint32LE, List.take_left' h4, fromLittleEndian_toUint32LE 8 (by norm_num)]
  have hoff₂ :
      fromUint32LE ((toUint32LE 8 ++ (toUint32LE (8 + K.length) ++ (K ++ B))).drop 4) =
        8 + K.length := by
    rw [List.drop_left' h4, fromUint32LE, List.take_left' h4',
      fromLittleEndian_toUint32LE _ (by omega)]
  have hslen : (toUint32LE 8 ++ (toUint32LE (8 + K.length) ++ (K ++ B))).length =
      8 + K.length + B.length := by
    simp [toUint32LE]
    omega
  have hdrop8 : (toUint32LE 8 ++ (toUint32LE (8 + K.length) ++ (K ++ B))).drop 8 = K ++ B := by
    rw [← List.append_assoc]
    exact List.drop_left' (by simp [toUint32LE])
  have hdropOff :
      (toUint32LE 8 ++ (toUint32LE (8 + K.length) ++ (K ++ B))).drop (8 + K.length) = B := by
    rw [← List.drop_drop K.length 8, hdrop8, List.drop_left]
  rw [List.append_assoc, List.append_assoc]
  rw [if_neg (by rw [hslen]; omega)]
  rw [hoff₁, hoff₂]
  rw [if_neg (by omega)]
  rw [if_neg (by rw [hslen]; push_neg; omega)]
  rw [hdrop8, Nat.add_sub_cancel_left, List.take_left, hdropOff]
  rw [blobKzgs_roundtrip_aux kz hk1 hk2]
  rw [blobs_roundtrip_aux fieldElementsPerBlob hfe bls hb1 hb2]

/-- C3: binary round-trip — deserializing the serialization of a
well-formed `KZGCommitment`, `Blob`, `BlobKzgs`, `Blobs` or
`BlobTxWrapData` into a fresh, empty destination yields the original
value (and, for the stream-based codecs, consumes the whole stream). -/
theorem serialize_roundtrip (fieldElementsPerBlob : Nat) (hfe : 0 < fieldElementsPerBlob)
    (p q : KZGCommitment) (blob : Blob) (li : BlobKzgs) (a : Blobs) (w : BlobTxWrapData) :
    (p.length = 48 →
      KZGCommitment.Deserialize (some q) (KZGCommitment.Serialize p) = .ok (p, [])) ∧
    (Blob.wf fieldElementsPerBlob blob →
      Blob.Deserialize fieldElementsPerBlob (Blob.Serialize blob) = .ok (blob, [])) ∧
    (li.length ≤ MAX_TX_WRAP_KZG_COMMITMENTS → (∀ c ∈ li, c.length = 48) →
      BlobKzgs.Deserialize [] (BlobKzgs.Serialize li) = .ok li) ∧
    (a.length ≤ LIMIT_BLOBS_PER_TX → (∀ bl ∈ a, Blob.wf fieldElementsPerBlob bl) →
      Blobs.Deserialize fieldElementsPerBlob [] (Blobs.Serialize a) = .ok a) ∧
    (w.BlobKzgs.length ≤ MAX_TX_WRAP_KZG_COMMITMENTS → (∀ c ∈ w.BlobKzgs, c.length = 48) →
      w.Blobs.length ≤ LIMIT_BLOBS_PER_TX → (∀ bl ∈ w.Blobs, Blob.wf fieldElementsPerBlob bl) →
      8 + w.BlobKzgs.length * 48 < 2 ^ 32 →
      BlobTxWrapData.Deserialize fieldElementsPerBlob (BlobTxWrapData.Serialize w) = .ok w) := by
  refine ⟨?_, ?_, ?_, ?_, ?_⟩
  · intro hp
    unfold KZGCommitment.Deserialize KZGCommitment.Serialize
    have := read_append 48 p [] hp
    rwa [List.append_nil] at this
  · intro hwf
    have := blob_roundtrip_aux fieldElementsPerBlob blob [] hwf
    rwa [List.append_nil] at this
  · exact blobKzgs_roundtrip_aux li
  · exact blobs_roundtrip_aux fieldElementsPerBlob hfe a
  · exact wrapData_roundtrip_aux fieldElementsPerBlob hfe w

/-- C3 witness: concrete values with `FieldElementsPerBlob = 2`. -/
theorem serialize_roundtrip_witness :
    KZGCommitment.Deserialize (some (List.replicate 48 0))
        (KZGCommitment.Serialize (List.replicate 48 9)) = .ok (List.replicate 48 9, []) ∧
    Blob.Deserialize 2 (Blob.Serialize [List.replicate 32 1, List.replicate 32 2]) =
      .ok ([List.replicate 32 1, List.replicate 32 2], []) ∧
    BlobKzgs.Deserialize [] (BlobKzgs.Serialize [List.replicate 48 9]) =
      .ok [List.replicate 48 9] ∧
    Blobs.Deserialize 2 [] (Blobs.Serialize [[List.replicate 32 1, List.replicate 32 2]]) =
      .ok [[List.replicate 32 1, List.replicate 32 2]] ∧
    BlobTxWrapData.Deserialize 2
        (BlobTxWrapData.Serialize ⟨[List.replicate 48 9],
          [[List.replicate 32 1, List.replicate 32 2]]⟩) =
      .ok ⟨[List.replicate 48 9], [[List.replicate 32 1, List.replicate 32 2]]⟩ := by
  have h := serialize_roundtrip 2 (by norm_num) (List.replicate 48 9) (List.replicate 48 0)
    [List.replicate 32 1, List.replicate 32 2] [List.replicate 48 9]
    [[List.replicate 32 1, List.replicate 32 2]]
    ⟨[List.replicate 48 9], [[List.replicate 32 1, List.replicate 32 2]]⟩
  exact ⟨h.1 (by decide), h.2.1 (by decide), h.2.2.1 (by decide) (by decide),
    h.2.2.2.1 (by decide) (by decide),
    h.2.2.2.2 (by decide) (by decide) (by decide) (by decide) (by norm_num)⟩

/-- C8: a successful list decode appends the decoded elements after the
destination's existing ones: the result is the old contents followed by
exactly what a fresh decode of the same bytes yields, so its length is the
old length plus the decoded count and its first elements are unchanged. -/
theorem list_deserialize_appends (fieldElementsPerBlob : Nat)
    (li li' : BlobKzgs) (a a' : Blobs) (s t : Bytes) :
    (BlobKzgs.Deserialize li s = .ok li' →
      ∃ d, BlobKzgs.Deserialize [] s = .ok d ∧ li' = li ++ d ∧
        li'.length = li.length + d.length ∧ li'.take li.length = li) ∧
    (Blobs.Deserialize fieldElementsPerBlob a t = .ok a' →
      ∃ d, Blobs.Deserialize fieldElementsPerBlob [] t = .ok d ∧ a' = a ++ d ∧
        a'.length = a.length + d.length ∧ a'.take a.length = a) := by
  constructor
  · intro h
    unfold BlobKzgs.Deserialize at h ⊢
    split at h
    · exact absurd h (by simp)
    · split at h
      · exact absurd h (by simp)
      · split at h
        · rename_i elems s₂ heq
          simp only [Except.ok.injEq] at h
          refine ⟨elems, ?_, ?_, ?_, ?_⟩
          · rw [if_neg (by assumption), if_neg (by assumption)]; simp
          · exact h.symm
          · rw [← h]; simp
          · rw [← h]; exact List.take_left li elems
        · exact absurd h (by simp)
  · intro h
    unfold Blobs.Deserialize at h ⊢
    split at h
    · exact absurd h (by simp)
    · split at h
      · exact absurd h (by simp)
      · split at h
        · rename_i elems s₂ heq
          simp only [Except.ok.injEq] at h
          refine ⟨elems, ?_, ?_, ?_, ?_⟩
          · rw [if_neg (by assumption), if_neg (by assumption)]; simp
          · exact h.symm
          · rw [← h]; simp
          · rw [← h]; exact List.take_left a elems
        · exact absurd h (by simp)

/-- C8 witness: decoding one more commitment / blob into a destination
already holding one. -/
theorem list_deserialize_appends_witness :
    (∃ d, BlobKzgs.Deserialize [] (BlobKzgs.Serialize [List.replicate 48 2]) = .ok d ∧
      [List.replicate 48 1, List.replicate 48 2] = [List.replicate 48 1] ++ d ∧
      ([List.replicate 48 1, List.replicate 48 2] : BlobKzgs).length =
        ([List.replicate 48 1] : BlobKzgs).length + d.length ∧
      ([List.replicate 48 1, List.replicate 48 2] : BlobKzgs).take
        ([List.replicate 48 1] : BlobKzgs).length = [List.replicate 48 1]) ∧
    (∃ d, Blobs.Deserialize 2 [] (Blobs.Serialize [[List.replicate 32 5, List.replicate 32 6]]) =
        .ok d ∧
      [[List.replicate 32 3, List.replicate 32 4], [List.replicate 32 5, List.replicate 32 6]] =
        [[List.replicate 32 3, List.replicate 32 4]] ++ d ∧
      ([[List.replicate 32 3, List.replicate 32 4],
        [List.replicate 32 5, List.replicate 32 6]] : Blobs).length =
        ([[List.replicate 32 3, List.replicate 32 4]] : Blobs).length + d.length ∧
      ([[List.replicate 32 3, List.replicate 32 4],
        [List.replicate 32 5, List.replicate 32 6]] : Blobs).take
        ([[List.replicate 32 3, List.replicate 32 4]] : Blobs).length =
        [[List.replicate 32 3, List.replicate 32 4]]) := by
  have h := list_deserialize_appends 2 [List.replicate 48 1]
    [List.replicate 48 1, List.replicate 48 2] [[List.replicate 32 3, List.replicate 32 4]]
    [[List.replicate 32 3, List.replicate 32 4], [List.replicate 32 5, List.replicate 32 6]]
    (BlobKzgs.Serialize [List.replicate 48 2])
    (Blobs.Serialize [[List.replicate 32 5, List.replicate 32 6]])
  exact ⟨h.1 (by rfl), h.2 (by rfl)⟩

/-- C5 witness: a concrete hash function and commitment. -/
theorem hashTreeRoot_split_witness :
    KZGCommitment.HashTreeRoot (fun a b => a ++ b) (List.replicate 48 3) =
      (fun (a b : Bytes) => a ++ b) ((List.replicate 48 (3 : Byte)).take 32)
        ((List.replicate 48 (3 : Byte)).drop 32 ++ List.replicate 16 0) :=
  hashTreeRoot_split (fun a b => a ++ b) (List.replicate 48 3) (by decide)

/-- C4: `Blob.ComputeCommitment` converts every scalar; if any 32-byte
scalar is at or above the field modulus it returns the zero commitment and
`false` (no partial result), if all are below it returns `true`, and it is
deterministic in the blob's scalar content. -/
theorem computeCommitment_range_check {G1 : Type} (blobToKzg : List Nat → G1)
    (toCompressedG1 : G1 → Bytes) (blob blob' : Blob) :
    ((∃ e ∈ blob, blsModulus ≤ fromLittleEndian e) →
      Blob.ComputeCommitment blobToKzg toCompressedG1 blob = (List.replicate 48 0, false)) ∧
    ((∀ e ∈ blob, fromLittleEndian e < blsModulus) →
      (Blob.ComputeCommitment blobToKzg toCompressedG1 blob).2 = true) ∧
    (blob = blob' →
      Blob.ComputeCommitment blobToKzg toCompressedG1 blob =
        Blob.ComputeCommitment blobToKzg toCompressedG1 blob') := by
  refine ⟨?_, ?_, fun h => by rw [h]⟩
  · intro ⟨e, he, hge⟩
    have hnone : optionMapM FrFrom32 blob = none :=
      (optionMapM_eq_none FrFrom32 blob).mpr
        ⟨e, he, by unfold FrFrom32; simp only [if_neg (Nat.not_lt.mpr hge)]⟩
    unfold Blob.ComputeCommitment
    rw [hnone]
  · intro hall
    have hsome : ∀ e ∈ blob, (FrFrom32 e).isSome := by
      intro e he
      unfold FrFrom32
      simp [if_pos (hall e he)]
    obtain ⟨ys, hy⟩ := optionMapM_isSome FrFrom32 blob hsome
    unfold Blob.ComputeCommitment
    rw [hy]

/-- C4 witness: an out-of-range scalar (32 bytes of `0xff`) yields the
zero commitment and `false`; an in-range blob yields `true`. -/
theorem computeCommitment_range_check_witness :
    Blob.ComputeCommitment (fun _ => (0 : Nat)) (fun _ => List.replicate 48 1)
      [List.replicate 32 255] = (List.replicate 48 0, false) ∧
    (Blob.ComputeCommitment (fun _ => (0 : Nat)) (fun _ => List.replicate 48 1)
      [List.replicate 32 0]).2 = true := by
  have h1 := computeCommitment_range_check (fun _ => (0 : Nat))
    (fun _ => List.replicate 48 1) [List.replicate 32 255] [List.replicate 32 255]
  have h2 := computeCommitment_range_check (fun _ => (0 : Nat))
    (fun _ => List.replicate 48 1) [List.replicate 32 0] [List.replicate 32 0]
  exact ⟨h1.1 ⟨List.replicate 32 255, by decide, by decide⟩, h2.2.1 (by decide)⟩

theorem firstHashMismatch_some (keccak : Bytes → Bytes) (kzgs : BlobKzgs) :
    ∀ (hashes : List Bytes) (i n : Nat), n < hashes.length →
    (∀ j < n, KZGCommitment.ComputeVersionedHash keccak (kzgs.getD (i + j) []) =
      hashes.getD j []) →
    KZGCommitment.ComputeVersionedHash keccak (kzgs.getD (i + n) []) ≠ hashes.getD n [] →
    firstHashMismatch keccak kzgs i hashes =
      some (i + n, hashes.getD n [],
        KZGCommitment.ComputeVersionedHash keccak (kzgs.getD (i + n) [])) := by
  intro hashes
  induction hashes with
  | nil => intro i n hn; exact absurd hn (by simp)
  | cons h rest ih =>
    intro i n hn hpre hne
    cases n with
    | zero =>
      rw [Nat.add_zero] at hne ⊢
      simp only [List.getD_cons_zero] at hne ⊢
      rw [firstHashMismatch, if_pos hne]
    | succ m =>
      have h0 : KZGCommitment.ComputeVersionedHash keccak (kzgs.getD i []) = h := by
        have := hpre 0 (by omega)
        simpa using this
      rw [firstHashMismatch, if_neg (by simp only [ne_eq, not_not]; exact h0)]
      have hm : m < rest.length := by simpa using hn
      have hpre' : ∀ j < m,
          KZGCommitment.ComputeVersionedHash keccak (kzgs.getD (i + 1 + j) []) =
            rest.getD j [] := by
        intro j hj
        have := hpre (j + 1) (by omega)
        simpa [Nat.add_assoc, Nat.add_comm 1 j] using this
      have hne' : KZGCommitment.ComputeVersionedHash keccak (kzgs.getD (i + 1 + m) []) ≠
          rest.getD m [] := by
        have heq : i + 1 + m = i + (m + 1) := by omega
        rw [heq]
        simpa using hne
      have := ih (i + 1) m hm hpre' hne'
      rw [this]
      have heq : i + 1 + m = i + (m + 1) := by omega
      simp [heq]

theorem firstHashMismatch_none (keccak : Bytes → Bytes) (kzgs : BlobKzgs) :
    ∀ (hashes : List Bytes) (i : Nat),
    (∀ j < hashes.length,
      KZGCommitment.ComputeVersionedHash keccak (kzgs.getD (i + j) []) = hashes.getD j []) →
    firstHashMismatch keccak kzgs i hashes = none := by
  intro hashes
  induction hashes with
  | nil => intro i _; rfl
  | cons h rest ih =>
    intro i hall
    have h0 : KZGCommitment.ComputeVersionedHash keccak (kzgs.getD i []) = h := by
      have := hall 0 (by simp)
      simpa using this
    rw [firstHashMismatch, if_neg (by simp only [ne_eq, not_not]; exact h0)]
    apply ih
    intro j hj
    have := hall (j + 1) (by simpa using hj)
    simpa [Nat.add_assoc, Nat.add_comm 1 j] using this

/-- C1: `checkWrapping` validates in this exact order, fail-fast with no
aggregation: (1) too many declared hashes; (2) commitment/blob count
mismatch; (3) commitment/hash count mismatch; (4) first index whose
computed versioned hash differs from the declared one (smallest index
wins); (5) a commitment failing point conversion; (6) a blob scalar
failing field conversion; (7) otherwise the external batch verification
result, propagated unchanged.  The last conjunct is the fail-fast special
case: if declared hashes 0 and 1 are both wrong, the reported index is 0. -/
theorem checkWrapping_ordered_failFast {G1 E : Type} (keccak : Bytes → Bytes)
    (fromC : Bytes → Option G1) (verify : List G1 → List (List Nat) → Except E Unit)
    (maxB : Nat) (b : BlobTxWrapData) (tx : SignedBlobTx) (hashes : List Bytes)
    (hh : hashes = tx.Message.BlobVersionedHashes) (r : Except (WrapError E) Unit)
    (hr : r = checkWrapping keccak fromC verify maxB b (.signedBlobTx tx)) :
    (hashes.length > maxB → r = .error (.tooManyBlobs hashes.length maxB)) ∧
    (hashes.length ≤ maxB → b.BlobKzgs.length ≠ b.Blobs.length →
      r = .error (.kzgsBlobsMismatch b.BlobKzgs.length b.Blobs.length)) ∧
    (hashes.length ≤ maxB → b.BlobKzgs.length = b.Blobs.length →
      b.BlobKzgs.length ≠ hashes.length →
      r = .error (.kzgsHashesMismatch b.BlobKzgs.length hashes.length)) ∧
    (hashes.length ≤ maxB → b.BlobKzgs.length = b.Blobs.length →
      b.BlobKzgs.length = hashes.length →
      ∀ n < hashes.length, (∀ j < n, computedHash keccak b j = hashes.getD j []) →
      computedHash keccak b n ≠ hashes.getD n [] →
      r = .error (.versionedHashMismatch n (hashes.getD n []) (computedHash keccak b n))) ∧
    (hashes.length ≤ maxB → b.BlobKzgs.length = b.Blobs.length →
      b.BlobKzgs.length = hashes.length →
      (∀ j < hashes.length, computedHash keccak b j = hashes.getD j []) →
      (∃ c ∈ b.BlobKzgs, fromC c = none) → r = .error .internalCommitment) ∧
    (hashes.length ≤ maxB → b.BlobKzgs.length = b.Blobs.length →
      b.BlobKzgs.length = hashes.length →
      (∀ j < hashes.length, computedHash keccak b j = hashes.getD j []) →
      (∀ c ∈ b.BlobKzgs, (fromC c).isSome) →
      (∃ bl ∈ b.Blobs, ∃ e ∈ bl, FrFrom32 e = none) → r = .error .internalBlobs) ∧
    (hashes.length ≤ maxB → b.BlobKzgs.length = b.Blobs.length →
      b.BlobKzgs.length = hashes.length →
      (∀ j < hashes.length, computedHash keccak b j = hashes.getD j []) →
      ∀ pts frs, BlobKzgs.Commitments fromC b.BlobKzgs = some pts →
      Blobs.toFr b.Blobs = some frs → r = (verify pts frs).mapError .external) ∧
    (hashes.length ≤ maxB → b.BlobKzgs.length = b.Blobs.length →
      b.BlobKzgs.length = hashes.length → 2 ≤ hashes.length →
      computedHash keccak b 0 ≠ hashes.getD 0 [] →
      computedHash keccak b 1 ≠ hashes.getD 1 [] →
      r = .error (.versionedHashMismatch 0 (hashes.getD 0 []) (computedHash keccak b 0))) := by
  subst hh
  subst hr
  simp only [checkWrapping]
  have main4 : tx.Message.BlobVersionedHashes.length ≤ maxB →
      b.BlobKzgs.length = b.Blobs.length →
      b.BlobKzgs.length = tx.Message.BlobVersionedHashes.length →
      ∀ n < tx.Message.BlobVersionedHashes.length,
      (∀ j < n, computedHash keccak b j = tx.Message.BlobVersionedHashes.getD j []) →
      computedHash keccak b n ≠ tx.Message.BlobVersionedHashes.getD n [] →
      (if tx.Message.BlobVersionedHashes.length > maxB then
        (.error (.tooManyBlobs tx.Message.BlobVersionedHashes.length maxB) :
          Except (WrapError E) Unit)
      else if b.BlobKzgs.length ≠ b.Blobs.length then
        .error (.kzgsBlobsMismatch b.BlobKzgs.length b.Blobs.length)
      else if b.BlobKzgs.length ≠ tx.Message.BlobVersionedHashes.length then
        .error (.kzgsHashesMismatch b.BlobKzgs.length tx.Message.BlobVersionedHashes.length)
      else match firstHashMismatch keccak b.BlobKzgs 0 tx.Message.BlobVersionedHashes with
        | some (i, h, computed) => .error (.versionedHashMismatch i h computed)
        | none =>
          match BlobKzgs.Commitments fromC b.BlobKzgs with
          | none => .error .internalCommitment
          | some commitments =>
            match Blobs.toFr b.Blobs with
            | none => .error .internalBlobs
            | some blobs => (verify commitments blobs).mapError .external) =
      .error (.versionedHashMismatch n (tx.Message.BlobVersionedHashes.getD n [])
        (computedHash keccak b n)) := by
    intro h1 h2 h3 n hn hpre hne
    rw [if_neg (Nat.not_lt.mpr h1), if_neg (by simp [h2]), if_neg (by simp [h3])]
    have := firstHashMismatch_some keccak b.BlobKzgs tx.Message.BlobVersionedHashes 0 n hn
      (by intro j hj; have := hpre j hj; simpa [computedHash] using this)
      (by have := hne; simpa [computedHash] using this)
    rw [Nat.zero_add] at this
    rw [this]
    rfl
  refine ⟨?_, ?_, ?_, main4, ?_, ?_, ?_, ?_⟩
  · intro h1
    rw [if_pos h1]
  · intro h1 h2
    rw [if_neg (Nat.not_lt.mpr h1), if_pos h2]
  · intro h1 h2 h3
    rw [if_neg (Nat.not_lt.mpr h1), if_neg (by simp [h2]), if_pos h3]
  · intro h1 h2 h3 hall ⟨c, hc, hcn⟩
    rw [if_neg (Nat.not_lt.mpr h1), if_neg (by simp [h2]), if_neg (by simp [h3])]
    rw [firstHashMismatch_none keccak b.BlobKzgs tx.Message.BlobVersionedHashes 0
      (by intro j hj; have := hall j hj; simpa [computedHash] using this)]
    have hcomm : BlobKzgs.Commitments fromC b.BlobKzgs = none :=
      (optionMapM_eq_none fromC b.BlobKzgs).mpr ⟨c, hc, hcn⟩
    rw [BlobKzgs.Commitments] at hcomm
    rw [BlobKzgs.Commitments, hcomm]
  · intro h1 h2 h3 hall hptsome ⟨bl, hbl, e, he, hen⟩
    rw [if_neg (Nat.not_lt.mpr h1), if_neg (by simp [h2]), if_neg (by simp [h3])]
    rw [firstHashMismatch_none keccak b.BlobKzgs tx.Message.BlobVersionedHashes 0
      (by intro j hj; have := hall j hj; simpa [computedHash] using this)]
    obtain ⟨pts, hpts⟩ := optionMapM_isSome fromC b.BlobKzgs hptsome
    rw [BlobKzgs.Commitments, hpts]
    have hfr : Blobs.toFr b.Blobs = none :=
      (optionMapM_eq_none _ b.Blobs).mpr
        ⟨bl, hbl, (optionMapM_eq_none FrFrom32 bl).mpr ⟨e, he, hen⟩⟩
    rw [Blobs.toFr] at hfr
    rw [Blobs.toFr, hfr]
  · intro h1 h2 h3 hall pts frs hpts hfrs
    rw [if_neg (Nat.not_lt.mpr h1), if_neg (by simp [h2]), if_neg (by simp [h3])]
    rw [firstHashMismatch_none keccak b.BlobKzgs tx.Message.BlobVersionedHashes 0
      (by intro j hj; have := hall j hj; simpa [computedHash] using this)]
    rw [BlobKzgs.Commitments] at hpts
    rw [BlobKzgs.Commitments, hpts]
    rw [Blobs.toFr] at hfrs
    rw [Blobs.toFr, hfrs]
  · intro h1 h2 h3 _ hn0 _
    exact main4 h1 h2 h3 0 (by omega) (by omega) hn0

/-- C1 witness: two declared hashes, both wrong — the reported mismatch
index is 0. -/
theorem checkWrapping_ordered_failFast_witness :
    checkWrapping (fun _ => List.replicate 32 0) (fun _ => some ())
      (fun _ _ => (Except.ok () : Except Unit Unit)) 16
      ⟨[List.replicate 48 0, List.replicate 48 0], [[], []]⟩
      (.signedBlobTx ⟨⟨[List.replicate 32 2, List.replicate 32 2]⟩⟩) =
    .error (.versionedHashMismatch 0
      ([List.replicate 32 2, List.replicate 32 2].getD 0 [])
      (computedHash (fun _ => List.replicate 32 0)
        ⟨[List.replicate 48 0, List.replicate 48 0], [[], []]⟩ 0)) := by
  have h := checkWrapping_ordered_failFast (fun _ => List.replicate 32 0) (fun _ => some ())
    (fun _ _ => (Except.ok () : Except Unit Unit)) 16
    ⟨[List.replicate 48 0, List.replicate 48 0], [[], []]⟩
    ⟨⟨[List.replicate 32 2, List.replicate 32 2]⟩⟩
    [List.replicate 32 2, List.replicate 32 2] rfl _ rfl
  exact h.2.2.2.2.2.2.2 (by decide) (by decide) (by decide) (by decide)
    (by decide) (by decide)

set_option maxRecDepth 100000 in
theorem byte_hex_roundtrip : ∀ b : Byte,
    fromHexChar (toHexChar (b.val / 16)) = some (b.val / 16) ∧
    fromHexChar (toHexChar (b.val % 16)) = some (b.val % 16) ∧
    natToByte (b.val / 16 * 16 + b.val % 16) = b := by decide

theorem hexEncode_cons (b : Byte) (bs : Bytes) :
    hexEncode (b :: bs) = toHexChar (b.val / 16) :: toHexChar (b.val % 16) :: hexEncode bs := by
  simp [hexEncode, byteToHex]

theorem hexDecode_hexEncode (bs : Bytes) : hexDecode (hexEncode bs) = some bs := by
  induction bs with
  | nil => rfl
  | cons b rest ih =>
    rw [hexEncode_cons, hexDecode, (byte_hex_roundtrip b).1, (byte_hex_roundtrip b).2.1, ih]
    simp [(byte_hex_roundtrip b).2.2]

theorem hexEncode_length (bs : Bytes) : (hexEncode bs).length = 2 * bs.length := by
  induction bs with
  | nil => rfl
  | cons b rest ih => rw [hexEncode_cons]; simp [ih]; omega

theorem toHexChar_lower (n : Nat) (h : n < 16) : isLowerHexDigit (toHexChar n) := by
  unfold toHexChar natToByte isLowerHexDigit
  split <;> simp <;> omega

theorem byteToHex_lower (b : Byte) : ∀ c ∈ byteToHex b, isLowerHexDigit c := by
  intro c hc
  simp only [byteToHex, List.mem_cons, List.not_mem_nil, or_false] at hc
  rcases hc with rfl | rfl
  · exact toHexChar_lower _ (by omega)
  · exact toHexChar_lower _ (by omega)

theorem hexEncode_lower (bs : Bytes) : ∀ c ∈ hexEncode bs, isLowerHexDigit c := by
  intro c hc
  obtain ⟨l, hl, hcl⟩ := List.mem_flatten.mp hc
  obtain ⟨b, _, rfl⟩ := List.mem_map.mp hl
  exact byteToHex_lower b c hcl

theorem hexDecode_none_of_nonhex :
    ∀ t : Bytes, (∃ c ∈ t, ¬ isHexDigit c) → hexDecode t = none
  | [] => by intro ⟨c, hc, _⟩; exact absurd hc (by simp)
  | [_] => by intro _; rfl
  | c₁ :: c₂ :: rest => by
    intro ⟨c, hc, hnc⟩
    rw [hexDecode]
    rcases List.mem_cons.mp hc with rfl | hc'
    · cases hfc : fromHexChar c with
      | none => cases fromHexChar c₂ <;> cases hexDecode rest <;> simp [hfc]
      | some v => exact absurd (by simp [isHexDigit, hfc]) hnc
    · rcases List.mem_cons.mp hc' with rfl | hc''
      · cases hfc : fromHexChar c with
        | none => cases fromHexChar c₁ <;> cases hexDecode rest <;> simp [hfc]
        | some v => exact absurd (by simp [isHexDigit, hfc]) hnc
      · rw [hexDecode_none_of_nonhex rest ⟨c, hc'', hnc⟩]
        cases fromHexChar c₁ <;> cases fromHexChar c₂ <;> simp

theorem stripHexTag_0x (rest : Bytes) : stripHexTag (48 :: 120 :: rest) = rest := rfl

/-- C6: `MarshalText` produces `"0x"` followed by 96 lowercase hex digits;
`UnmarshalText` inverts it; after stripping one optional `0x`/`0X` tag,
`UnmarshalText` fails on any text that is not exactly 96 characters
(length error) or contains a non-hex digit (hex error). -/
theorem commitment_text_codec (p q : KZGCommitment) (hp : p.length = 48) :
    (KZGCommitment.MarshalText p).length = 98 ∧
    (KZGCommitment.MarshalText p).take 2 = [48, 120] ∧
    (∀ c ∈ (KZGCommitment.MarshalText p).drop 2, isLowerHexDigit c) ∧
    KZGCommitment.UnmarshalText (some q) (KZGCommitment.MarshalText p) = .ok p ∧
    (∀ t : Bytes, (stripHexTag t).length ≠ 96 →
      KZGCommitment.UnmarshalText (some q) t = .error .textLength) ∧
    (∀ t : Bytes, (stripHexTag t).length = 96 → (∃ c ∈ stripHexTag t, ¬ isHexDigit c) →
      KZGCommitment.UnmarshalText (some q) t = .error .hexInvalid) := by
  refine ⟨?_, rfl, ?_, ?_, ?_, ?_⟩
  · simp [KZGCommitment.MarshalText, hexEncode_length, hp]
  · intro c hc
    simp only [KZGCommitment.MarshalText, List.drop_succ_cons, List.drop_zero] at hc
    exact hexEncode_lower p c hc
  · rw [KZGCommitment.UnmarshalText]
    simp only [KZGCommitment.MarshalText, stripHexTag_0x]
    rw [if_neg (by simp [hexEncode_length, hp]), hexDecode_hexEncode]
  · intro t ht
    rw [KZGCommitment.UnmarshalText]
    simp only [if_pos ht]
  · intro t hlen hnon
    rw [KZGCommitment.UnmarshalText]
    rw [if_neg (by simp [hlen]), hexDecode_none_of_nonhex _ hnon]

/-- C6 witness: a concrete commitment round-trips; a short text and a
96-character text with a non-hex digit fail. -/
theorem commitment_text_codec_witness :
    (KZGCommitment.MarshalText (List.replicate 48 171)).length = 98 ∧
    KZGCommitment.UnmarshalText (some (List.replicate 48 0))
      (KZGCommitment.MarshalText (List.replicate 48 171)) = .ok (List.replicate 48 171) ∧
    KZGCommitment.UnmarshalText (some (List.replicate 48 0)) [48] = .error .textLength ∧
    KZGCommitment.UnmarshalText (some (List.replicate 48 0)) (List.replicate 96 103) =
      .error .hexInvalid := by
  have h := commitment_text_codec (List.replicate 48 171) (List.replicate 48 0) (by decide)
  exact ⟨h.1, h.2.2.2.1, h.2.2.2.2.1 [48] (by decide),
    h.2.2.2.2.2 (List.replicate 96 103) (by decide) (by decide)⟩

/-! ## Case-insensitive decoding -/

set_option maxRecDepth 100000 in
theorem fromHexChar_hexUpper : ∀ c : Byte, fromHexChar (hexUpper c) = fromHexChar c := by
  decide

theorem upperVariant_length {s t : Bytes} (h : UpperVariant s t) : s.length = t.length := by
  induction h with
  | nil => rfl
  | keep c _ ih => simp [ih]
  | upper c _ ih => simp [ih]

theorem upperVariant_map_fromHexChar {s t : Bytes} (h : UpperVariant s t) :
    s.map fromHexChar = t.map fromHexChar := by
  induction h with
  | nil => rfl
  | keep c _ ih => simp [ih]
  | upper c _ ih => simp [ih, fromHexChar_hexUpper]

theorem hexDecode_congr :
    ∀ s t : Bytes, s.map fromHexChar = t.map fromHexChar → hexDecode s = hexDecode t
  | [], t, h => by
    cases t with
    | nil => rfl
    | cons d tr => simp at h
  | [_], t, h => by
    cases t with
    | nil => simp at h
    | cons d tr =>
      cases tr with
      | nil => rfl
      | cons d₂ tr₂ => simp at h
  | c₁ :: c₂ :: rest, t, h => by
    cases t with
    | nil => simp at h
    | cons d₁ t₁ =>
      cases t₁ with
      | nil => simp at h
      | cons d₂ tr =>
        simp only [List.map_cons, List.cons.injEq] at h
        obtain ⟨h1, h2, h3⟩ := h
        rw [hexDecode, hexDecode, h1, h2, hexDecode_congr rest tr h3]

theorem upperVariant_cons_inv {s : Bytes} {c : Byte} {t : Bytes}
    (h : UpperVariant s (c :: t)) :
    ∃ c' s', s = c' :: s' ∧ (c' = c ∨ c' = hexUpper c) ∧ UpperVariant s' t := by
  cases h with
  | keep _ h' => exact ⟨c, _, rfl, Or.inl rfl, h'⟩
  | upper _ h' => exact ⟨hexUpper c, _, rfl, Or.inr rfl, h'⟩

theorem upperVariant_map (t : Bytes) : UpperVariant (t.map hexUpper) t := by
  induction t with
  | nil => exact .nil
  | cons c rest ih => exact .upper c ih

/-- C10: `UnmarshalText` is case-insensitive in the hex digits: any string
obtained from `MarshalText p` by uppercasing a subset of its lowercase hex
letters still decodes to `p`. -/
theorem unmarshalText_case_insensitive (p q : KZGCommitment) (hp : p.length = 48)
    (s : Bytes) (hv : UpperVariant s (KZGCommitment.MarshalText p)) :
    KZGCommitment.UnmarshalText (some q) s = .ok p := by
  rw [KZGCommitment.MarshalText] at hv
  obtain ⟨c₀, s₀, rfl, hc₀, hv₀⟩ := upperVariant_cons_inv hv
  obtain ⟨c₁, s₁, rfl, hc₁, hv₁⟩ := upperVariant_cons_inv hv₀
  have hc₀' : c₀ = 48 := by rcases hc₀ with rfl | rfl <;> decide
  have hc₁' : c₁ = 120 := by rcases hc₁ with rfl | rfl <;> decide
  subst hc₀' hc₁'
  rw [KZGCommitment.UnmarshalText]
  simp only [stripHexTag_0x]
  have hlen : s₁.length = 96 := by
    rw [upperVariant_length hv₁, hexEncode_length, hp]
  rw [if_neg (by simp [hlen])]
  rw [hexDecode_congr s₁ (hexEncode p) (upperVariant_map_fromHexChar hv₁),
    hexDecode_hexEncode]

/-- C10 witness: uppercasing every hex digit of a concrete commitment's
text still decodes to it. -/
theorem unmarshalText_case_insensitive_witness :
    KZGCommitment.UnmarshalText (some (List.replicate 48 0))
      ((KZGCommitment.MarshalText (List.replicate 48 171)).map hexUpper) =
      .ok (List.replicate 48 171) := by
  have hv : UpperVariant ((KZGCommitment.MarshalText (List.replicate 48 171)).map hexUpper)
      (KZGCommitment.MarshalText (List.replicate 48 171)) :=
    upperVariant_map _
  exact unmarshalText_case_insensitive (List.replicate 48 171) (List.replicate 48 0)
    (by decide) _ hv

end DataBlob
